import Mathlib

/-!
Shallow embedding of the Ultimate Tic-Tac-Toe rules engine
(`src/services/gameLogic.ts`), its constants (`constants.ts`) and the
decision engine (`src/services/ai.ts`).  Machine numbers in the source are
JS doubles used only at integer values (plus the sentinels `Infinity` and
`-Infinity`), so scores are modelled as `Int` extended with two infinities
(`XInt`).  Array indexing `xs[i]` is modelled with `List.getD`; the claims
restrict indices to the in-range domain where the TypeScript code is
defined.  `Math.random()`-based choices are modelled by an arbitrary
natural number reduced modulo the list length, matching the guarantee
`Math.floor(Math.random()*len) ∈ [0, len)`.  The wall-clock reads of
`performance.now()` compared against `TIME_LIMIT_MS` are modelled by a
boolean oracle `clock : Nat → Bool` consumed one tick per comparison
(`true` = budget exceeded); theorems about the search quantify over every
oracle unless stated otherwise.
-/

/-- `Player` from `types.ts`: `'X' | 'O'`. -/
inductive Player where
  | X : Player
  | O : Player
deriving DecidableEq, Repr, Fintype

/-- The non-null values of `Winner` from `types.ts`: a player mark or `'Draw'`. -/
inductive Wval where
  | P : Player → Wval
  | Draw : Wval
deriving DecidableEq, Repr, Fintype

/-- `Winner` from `types.ts`: `Player | 'Draw' | null`; `none` is `null`. -/
abbrev Winner := Option Wval

/-- Coerce a small-board cell `(Player | null)` into the
`(Player | Winner | null)` domain accepted by `checkBoardWinner`. -/
def pcell (c : Option Player) : Winner := c.map Wval.P

/-- `SmallBoardState` from `types.ts`. -/
structure SmallBoardState where
  cells : List (Option Player)
  winner : Winner
deriving DecidableEq, Repr

instance : Inhabited SmallBoardState := ⟨⟨[], none⟩⟩

/-- `MoveHistory` from `types.ts`. -/
structure MoveHistory where
  boardIndex : Nat
  cellIndex : Nat
  player : Player
deriving DecidableEq, Repr

/-- `GameState` from `types.ts`.  The `difficulty` tag is kept as a raw
string, matching the runtime representation. -/
structure GameState where
  boards : List SmallBoardState
  macroBoard : List Winner
  activeBoard : Option Nat
  currentPlayer : Player
  winner : Winner
  history : List MoveHistory
  difficulty : Option String
  lastMove : Option (Nat × Nat)
deriving DecidableEq, Repr

/-- A `(boardIndex, cellIndex)` move object as used by `getAvailableMoves`
and the AI. -/
structure MoveT where
  boardIndex : Nat
  cellIndex : Nat
deriving DecidableEq, Repr

instance : Inhabited MoveT := ⟨⟨0, 0⟩⟩

/-- `WINNING_PATTERNS` from `constants.ts`. -/
def WINNING_PATTERNS : List (Nat × Nat × Nat) :=
  [(0, 1, 2), (3, 4, 5), (6, 7, 8),
   (0, 3, 6), (1, 4, 7), (2, 5, 8),
   (0, 4, 8), (2, 4, 6)]

/-- `INITIAL_GAME_STATE` from `constants.ts`. -/
def INITIAL_GAME_STATE : GameState :=
  { boards := List.replicate 9 ⟨List.replicate 9 none, none⟩
    macroBoard := List.replicate 9 none
    activeBoard := none
    currentPlayer := .X
    winner := none
    history := []
    difficulty := none
    lastMove := none }

/-- The predicate of the `for (const pattern of WINNING_PATTERNS)` loop in
`checkBoardWinner`: `cells[a] && cells[a] === cells[b] && cells[a] === cells[c]`
(`null` is the only falsy value in the cell domain). -/
def linePred (cells : List Winner) (t : Nat × Nat × Nat) : Bool :=
  (cells.getD t.1 none).isSome &&
    cells.getD t.1 none == cells.getD t.2.1 none &&
    cells.getD t.1 none == cells.getD t.2.2 none

/-- `checkBoardWinner` from `gameLogic.ts`: first completed line wins,
otherwise `'Draw'` when every cell is non-null, otherwise `null`. -/
def checkBoardWinner (cells : List Winner) : Winner :=
  match WINNING_PATTERNS.find? (linePred cells) with
  | some t => cells.getD t.1 none
  | none => if cells.all (·.isSome) then some .Draw else none

/-- `isMoveValid` from `gameLogic.ts`. -/
def isMoveValid (state : GameState) (boardIndex cellIndex : Nat) : Bool :=
  if state.winner.isSome then false
  else if state.activeBoard ≠ none && state.activeBoard ≠ some boardIndex then false
  else
    let targetBoard := state.boards.getD boardIndex default
    if targetBoard.winner.isSome then false
    else if (targetBoard.cells.getD cellIndex none).isSome then false
    else true

/-- The opponent of a player: `p === 'X' ? 'O' : 'X'`. -/
def other (p : Player) : Player :=
  match p with
  | .X => .O
  | .O => .X

/-- The `currentBoard` local of `makeMove`. -/
def currentBoardOf (state : GameState) (boardIndex : Nat) : SmallBoardState :=
  state.boards.getD boardIndex default

/-- The `newCells` local of `makeMove` — the played cell marked with the
current player. -/
def newCellsOf (state : GameState) (boardIndex cellIndex : Nat) : List (Option Player) :=
  (currentBoardOf state boardIndex).cells.set cellIndex (some state.currentPlayer)

/-- The `smallBoardWinner` local of `makeMove`. -/
def smallBoardWinnerOf (state : GameState) (boardIndex cellIndex : Nat) : Winner :=
  checkBoardWinner ((newCellsOf state boardIndex cellIndex).map pcell)

/-- The played sub-board after `makeMove`'s conditional winner update. -/
def newBoardOf (state : GameState) (boardIndex cellIndex : Nat) : SmallBoardState :=
  if (smallBoardWinnerOf state boardIndex cellIndex).isSome then
    ⟨newCellsOf state boardIndex cellIndex, smallBoardWinnerOf state boardIndex cellIndex⟩
  else ⟨newCellsOf state boardIndex cellIndex, (currentBoardOf state boardIndex).winner⟩

/-- The `newBoards` local of `makeMove`. -/
def newBoardsOf (state : GameState) (boardIndex cellIndex : Nat) : List SmallBoardState :=
  state.boards.set boardIndex (newBoardOf state boardIndex cellIndex)

/-- The `newMacroBoard` local of `makeMove`. -/
def newMacroBoardOf (state : GameState) (boardIndex cellIndex : Nat) : List Winner :=
  if (smallBoardWinnerOf state boardIndex cellIndex).isSome then
    state.macroBoard.set boardIndex (smallBoardWinnerOf state boardIndex cellIndex)
  else state.macroBoard

/-- The `destBoard` local of `makeMove` — the sub-board the opponent is
sent to, read from the post-move boards. -/
def destBoardOf (state : GameState) (boardIndex cellIndex : Nat) : SmallBoardState :=
  (newBoardsOf state boardIndex cellIndex).getD cellIndex default

/-- The `nextActiveBoard` local of `makeMove`. -/
def nextActiveBoardOf (state : GameState) (boardIndex cellIndex : Nat) : Option Nat :=
  if (destBoardOf state boardIndex cellIndex).winner.isSome ||
      (destBoardOf state boardIndex cellIndex).cells.all (·.isSome) then none
  else some cellIndex

/-- `makeMove` from `gameLogic.ts`.  The deep copy of the source is
immaterial in a pure model; each `const` local of the source is the
correspondingly named definition above. -/
def makeMove (state : GameState) (boardIndex cellIndex : Nat) : GameState :=
  { boards := newBoardsOf state boardIndex cellIndex
    macroBoard := newMacroBoardOf state boardIndex cellIndex
    activeBoard := nextActiveBoardOf state boardIndex cellIndex
    currentPlayer := other state.currentPlayer
    winner := checkBoardWinner (newMacroBoardOf state boardIndex cellIndex)
    history := state.history ++ [⟨boardIndex, cellIndex, state.currentPlayer⟩]
    difficulty := state.difficulty
    lastMove := some (boardIndex, cellIndex) }

/-- `getAvailableMoves` from `gameLogic.ts`: ascending board index, then
ascending cell index. -/
def getAvailableMoves (state : GameState) : List MoveT :=
  let boardsToCheck :=
    match state.activeBoard with
    | some b => [b]
    | none => [0, 1, 2, 3, 4, 5, 6, 7, 8]
  boardsToCheck.flatMap fun bIdx =>
    let board := state.boards.getD bIdx default
    if board.winner.isSome then []
    else (List.range 9).filterMap fun cIdx =>
      if board.cells.getD cIdx none = none then some ⟨bIdx, cIdx⟩ else none

/-- `reconstructGameState` from `gameLogic.ts`: fold `makeMove` over a move
log starting from the initial state. -/
def reconstructGameState (moves : List MoveHistory) (initialDifficulty : Option String) :
    GameState :=
  moves.foldl (fun s m => makeMove s m.boardIndex m.cellIndex)
    { INITIAL_GAME_STATE with difficulty := initialDifficulty }

/-- JS numbers as the engine uses them: finite integers plus the
sentinels `Infinity` and `-Infinity`. -/
inductive XInt where
  | negInf : XInt
  | fin : Int → XInt
  | posInf : XInt
deriving DecidableEq, Repr

/-- Strict `<` of JS on `XInt` values, as a boolean. -/
def XInt.blt : XInt → XInt → Bool
  | .negInf, .negInf => false
  | .negInf, _ => true
  | .fin a, .fin b => a < b
  | .fin _, .posInf => true
  | .fin _, .negInf => false
  | .posInf, _ => false

/-- Non-strict `<=` of JS on `XInt` values, as a boolean. -/
def XInt.ble : XInt → XInt → Bool
  | .negInf, _ => true
  | .fin a, .fin b => a ≤ b
  | .fin _, .posInf => true
  | .fin _, .negInf => false
  | .posInf, .posInf => true
  | .posInf, _ => false

/-- `Math.max` on `XInt`. -/
def XInt.fmax (a b : XInt) : XInt := if XInt.ble a b then b else a

/-- `Math.min` on `XInt`. -/
def XInt.fmin (a b : XInt) : XInt := if XInt.ble a b then a else b

/-- `WIN_SCORE` from `ai.ts`. -/
def WIN_SCORE : Int := 10000000

/-- `MAX_DEPTH_IMPOSSIBLE` from `ai.ts`. -/
def MAX_DEPTH_IMPOSSIBLE : Nat := 12

/-- The strategic-weight table `W` of `ai.ts`, one constant per field. -/
def W_LINE_2 : Int := 10

def W_LINE_1 : Int := 1

def W_BLOCK_OPP_2 : Int := 15

def W_BOARD_WON : Int := 150

def W_BOARD_LOST : Int := -150

def W_MACRO_WIN_THREAT : Int := 5000

def W_MACRO_BLOCK_THREAT : Int := 6000

def W_MACRO_LINE_1 : Int := 200

def W_MACRO_CENTER : Int := 5

def W_MACRO_CORNER : Int := 3

def W_MACRO_EDGE : Int := 1

def W_GIVE_FREE_MOVE : Int := -5000

def W_SEND_TO_WINNABLE : Int := -4000

/-- `getMacroWeight` from `ai.ts`. -/
def getMacroWeight (idx : Nat) : Int :=
  if idx = 4 then W_MACRO_CENTER
  else if idx = 0 ∨ idx = 2 ∨ idx = 6 ∨ idx = 8 then W_MACRO_CORNER
  else W_MACRO_EDGE

/-- Counts one macro cell toward a per-line tally. -/
def cnt1 (w : Winner) (x : Wval) : Nat := if w = some x then 1 else 0

/-- One iteration of the macro-line loop of `evaluateStateAdvanced`:
`.error v` models the early `return v`, `.ok d` the score increment of a
non-returning iteration. -/
def scanStep (va vb vc : Winner) (player opponent : Player) : Except Int Int :=
  let pCount := cnt1 va (.P player) + cnt1 vb (.P player) + cnt1 vc (.P player)
  let oCount := cnt1 va (.P opponent) + cnt1 vb (.P opponent) + cnt1 vc (.P opponent)
  let draws := cnt1 va .Draw + cnt1 vb .Draw + cnt1 vc .Draw
  if draws = 0 then
    if pCount = 3 then .error WIN_SCORE
    else if oCount = 3 then .error (-WIN_SCORE)
    else if pCount = 2 ∧ oCount = 0 then .ok W_MACRO_WIN_THREAT
    else if oCount = 2 ∧ pCount = 0 then .ok (-W_MACRO_BLOCK_THREAT)
    else if pCount = 1 ∧ oCount = 0 then .ok W_MACRO_LINE_1
    else if oCount = 1 ∧ pCount = 0 then .ok (-W_MACRO_LINE_1)
    else .ok 0
  else .ok 0

/-- The macro-line `for` loop of `evaluateStateAdvanced`, with the early
`return` threaded as `.error`. -/
def macroScan (mb : List Winner) (player opponent : Player) :
    List (Nat × Nat × Nat) → Int → Except Int Int
  | [], acc => .ok acc
  | t :: rest, acc =>
    match scanStep (mb.getD t.1 none) (mb.getD t.2.1 none) (mb.getD t.2.2 none)
        player opponent with
    | .error v => .error v
    | .ok d => macroScan mb player opponent rest (acc + d)

/-- Counts one small-board cell toward a per-line tally. -/
def cntP (c : Option Player) (q : Player) : Nat := if c = some q then 1 else 0

/-- `evaluateSmallBoardRaw` from `ai.ts`. -/
def evaluateSmallBoardRaw (cells : List (Option Player)) (player opponent : Player) : Int :=
  let s0 : Int :=
    (if cells.getD 4 none = some player then 5 else 0) +
      (if cells.getD 4 none = some opponent then -5 else 0)
  WINNING_PATTERNS.foldl (fun s t =>
    let pCount := cntP (cells.getD t.1 none) player + cntP (cells.getD t.2.1 none) player +
      cntP (cells.getD t.2.2 none) player
    let oCount := cntP (cells.getD t.1 none) opponent + cntP (cells.getD t.2.1 none) opponent +
      cntP (cells.getD t.2.2 none) opponent
    if pCount > 0 ∧ oCount = 0 then s + (if pCount = 2 then W_LINE_2 else W_LINE_1)
    else if oCount > 0 ∧ pCount = 0 then s - (if oCount = 2 then W_LINE_2 else W_LINE_1)
    else if oCount = 2 ∧ pCount = 1 then s + W_BLOCK_OPP_2
    else s) s0

/-- `canWinBoard` from `ai.ts`. -/
def canWinBoard (cells : List (Option Player)) (player : Player) : Bool :=
  (List.range 9).any fun i =>
    cells.getD i none == none &&
      checkBoardWinner ((cells.set i (some player)).map pcell) == some (.P player)

/-- `evaluateStateAdvanced` from `ai.ts`. -/
def evaluateStateAdvanced (state : GameState) (player : Player) : Int :=
  let opponent := other player
  match macroScan state.macroBoard player opponent WINNING_PATTERNS 0 with
  | .error v => v
  | .ok macroScore =>
    let boardsScore := (List.range 9).foldl (fun s i =>
      let board := state.boards.getD i default
      let weight := getMacroWeight i
      if board.winner = some (.P player) then s + W_BOARD_WON * weight
      else if board.winner = some (.P opponent) then s + W_BOARD_LOST * weight
      else if board.winner = some .Draw then s - 20
      else s + evaluateSmallBoardRaw board.cells player opponent * weight) macroScore
    let tactical : Int :=
      if state.currentPlayer = opponent then
        match state.activeBoard with
        | none => W_GIVE_FREE_MOVE
        | some a =>
          if canWinBoard (state.boards.getD a default).cells opponent then W_SEND_TO_WINNABLE
          else 0
      else 0
    boardsScore + tactical

/-- The per-move score computed inside `orderMoves` in `ai.ts`. -/
def orderScore (state : GameState) (player : Player) (m : MoveT) : Int :=
  let opponent := other player
  let targetBoard := state.boards.getD m.boardIndex default
  let s1 : Int :=
    if checkBoardWinner (state.macroBoard.set m.boardIndex (some (.P player))) =
        some (.P player) then WIN_SCORE else 0
  let testCells := targetBoard.cells.set m.cellIndex (some player)
  let s2 : Int :=
    if checkBoardWinner (testCells.map pcell) = some (.P player) then
      W_BOARD_WON * getMacroWeight m.boardIndex * 10
    else 0
  let destBoard := state.boards.getD m.cellIndex default
  let s3 : Int :=
    if destBoard.winner.isSome || destBoard.cells.all (·.isSome) then W_GIVE_FREE_MOVE
    else if canWinBoard destBoard.cells opponent then W_SEND_TO_WINNABLE
    else 0
  let s4 : Int := if m.cellIndex = 4 then 20 else 0
  s1 + s2 + s3 + s4

/-- `orderMoves` from `ai.ts`: score each move, stable-sort descending by
score, drop the scores.  JS `Array.prototype.sort` is a stable sort, and a
stable sort's output is uniquely determined by the comparator (here the
total preorder "score at least as large") and the input order, so the
stable `List.insertionSort` models it exactly. -/
def orderMoves (state : GameState) (moves : List MoveT) (player : Player) : List MoveT :=
  (List.insertionSort (fun x y => y.2 ≤ x.2)
    (moves.map fun m => (m, orderScore state player m))).map (·.1)

/-- The best-move loop of the `'hard'` tier of `getBestMove`:
strict-improvement scan with JS `-Infinity` as the seed score. -/
def hardLoop (f : MoveT → Int) : List MoveT → MoveT → XInt → MoveT × XInt
  | [], bm, bs => (bm, bs)
  | m :: rest, bm, bs =>
    if XInt.blt bs (.fin (f m)) then hardLoop f rest m (.fin (f m))
    else hardLoop f rest bm bs

/-- The maximizing `for` loop of `minimax`; `child` is the one-ply-deeper
search and `.error` propagates the timeout exception. -/
def mmMaxFold (child : GameState → XInt → XInt → Nat → Except Unit (XInt × Nat))
    (st : GameState) :
    List MoveT → XInt → XInt → XInt → Nat → Except Unit (XInt × Nat)
  | [], maxEval, _, _, tick => .ok (maxEval, tick)
  | m :: rest, maxEval, alpha, beta, tick =>
    match child (makeMove st m.boardIndex m.cellIndex) alpha beta tick with
    | .error e => .error e
    | .ok (v, t2) =>
      let m2 := XInt.fmax maxEval v
      let a2 := XInt.fmax alpha v
      if XInt.ble beta a2 then .ok (m2, t2)
      else mmMaxFold child st rest m2 a2 beta t2

/-- The minimizing `for` loop of `minimax`. -/
def mmMinFold (child : GameState → XInt → XInt → Nat → Except Unit (XInt × Nat))
    (st : GameState) :
    List MoveT → XInt → XInt → XInt → Nat → Except Unit (XInt × Nat)
  | [], minEval, _, _, tick => .ok (minEval, tick)
  | m :: rest, minEval, alpha, beta, tick =>
    match child (makeMove st m.boardIndex m.cellIndex) alpha beta tick with
    | .error e => .error e
    | .ok (v, t2) =>
      let m2 := XInt.fmin minEval v
      let b2 := XInt.fmin beta v
      if XInt.ble b2 alpha then .ok (m2, t2)
      else mmMinFold child st rest m2 alpha b2 t2

/-- `minimax` from `ai.ts`.  One clock tick is consumed per call,
modelling the `performance.now()` timeout comparison; `.error ()` models
the thrown `"Timeout"`. -/
def minimax (clock : Nat → Bool) (aiPlayer : Player) :
    Nat → GameState → XInt → XInt → Bool → Nat → Except Unit (XInt × Nat)
  | depth, st, alpha, beta, isMax, tick =>
    if clock tick then .error ()
    else
      let t := tick + 1
      if st.winner = some (.P aiPlayer) then .ok (.fin (WIN_SCORE + (depth : Int)), t)
      else if st.winner.isSome && st.winner != some .Draw then
        .ok (.fin (-WIN_SCORE - (depth : Int)), t)
      else if st.winner = some .Draw then .ok (.fin 0, t)
      else
        match depth with
        | 0 => .ok (.fin (evaluateStateAdvanced st aiPlayer), t)
        | d + 1 =>
          let moves := getAvailableMoves st
          if moves.isEmpty then .ok (.fin 0, t)
          else if isMax then
            mmMaxFold (fun s2 a b tk => minimax clock aiPlayer d s2 a b false tk)
              st moves .negInf alpha beta t
          else
            mmMinFold (fun s2 a b tk => minimax clock aiPlayer d s2 a b true tk)
              st moves .posInf alpha beta t

/-- The root `for` loop of one iterative-deepening iteration in
`getImpossibleMove`. -/
def rootFold (clock : Nat → Bool) (aiPlayer : Player) (state : GameState) (depth : Nat) :
    List MoveT → MoveT → XInt → XInt → XInt → Nat → Except Unit (MoveT × XInt × Nat)
  | [], cb, cbs, _, _, tick => .ok (cb, cbs, tick)
  | m :: rest, cb, cbs, alpha, beta, tick =>
    match minimax clock aiPlayer (depth - 1) (makeMove state m.boardIndex m.cellIndex)
        alpha beta false tick with
    | .error e => .error e
    | .ok (v, t2) =>
      let upd := XInt.blt cbs v
      let cb2 := if upd then m else cb
      let cbs2 := if upd then v else cbs
      let a2 := XInt.fmax alpha v
      if XInt.ble beta a2 then .ok (cb2, cbs2, t2)
      else rootFold clock aiPlayer state depth rest cb2 cbs2 a2 beta t2

/-- The `for (let depth = 1; ...)` iterative-deepening loop of
`getImpossibleMove`; `r` is the number of remaining iterations.  A `true`
clock tick models `break` on the pre-iteration time check; a propagated
timeout exception models `catch (e) { break; }`. -/
def idLoop (clock : Nat → Bool) (aiPlayer : Player) (state : GameState) :
    Nat → Nat → MoveT → XInt → List MoveT → Nat → MoveT × XInt
  | 0, _, bestMove, bestScore, _, _ => (bestMove, bestScore)
  | r + 1, depth, bestMove, bestScore, sorted, tick =>
    if clock tick then (bestMove, bestScore)
    else
      match rootFold clock aiPlayer state depth sorted (sorted.headD default)
          .negInf .negInf .posInf (tick + 1) with
      | .error _ => (bestMove, bestScore)
      | .ok (cb, cbs, t2) =>
        let resorted := cb :: sorted.filter fun m2 =>
          decide (m2.boardIndex ≠ cb.boardIndex) || decide (m2.cellIndex ≠ cb.cellIndex)
        idLoop clock aiPlayer state r (depth + 1) cb cbs resorted t2

/-- `getImpossibleMove` from `ai.ts`. -/
def getImpossibleMove (state : GameState) (moves : List MoveT) (clock : Nat → Bool) :
    MoveT × XInt :=
  let aiPlayer := state.currentPlayer
  let sorted := orderMoves state moves aiPlayer
  idLoop clock aiPlayer state MAX_DEPTH_IMPOSSIBLE 1 (moves.headD default) .negInf sorted 0

/-- The move-plus-optional-score object returned by `getBestMove`;
`score := none` models an absent `score` field. -/
structure BestMoveResult where
  move : MoveT
  score : Option XInt
deriving DecidableEq, Repr

/-- `getBestMove` from `ai.ts`.  `difficulty` is kept as a raw string so
the final `return moves[0]` fallback for unknown tiers is representable;
`rand` models the `Math.random()` draw and `clock` the wall-clock
oracle. -/
def getBestMove (state : GameState) (difficulty : String) (rand : Nat)
    (clock : Nat → Bool) : Option BestMoveResult :=
  let moves := getAvailableMoves state
  if moves.isEmpty then none
  else if difficulty == "easy" then
    some ⟨moves.getD (rand % moves.length) default, none⟩
  else
    let aiPlayer := state.currentPlayer
    let opponent := other aiPlayer
    if difficulty == "medium" then
      match moves.find? (fun m =>
        ((makeMove state m.boardIndex m.cellIndex).boards.getD m.boardIndex default).winner ==
          some (.P aiPlayer)) with
      | some m => some ⟨m, none⟩
      | none =>
        match moves.find? (fun m =>
          checkBoardWinner
              (((state.boards.getD m.boardIndex default).cells.set m.cellIndex
                (some opponent)).map pcell) == some (.P opponent)) with
        | some m => some ⟨m, none⟩
        | none => some ⟨moves.getD (rand % moves.length) default, none⟩
    else if difficulty == "hard" then
      let ordered := orderMoves state moves aiPlayer
      let r := hardLoop
        (fun m => evaluateStateAdvanced (makeMove state m.boardIndex m.cellIndex) aiPlayer)
        ordered (moves.headD default) .negInf
      some ⟨r.1, some r.2⟩
    else if difficulty == "impossible" then
      let r := getImpossibleMove state moves clock
      some ⟨r.1, some r.2⟩
    else some ⟨moves.headD default, none⟩

/-- The labels produced by `analyzeMoveQuality` in `ai.ts`. -/
inductive MoveClassification where
  | best : MoveClassification
  | good : MoveClassification
  | inaccuracy : MoveClassification
  | blunder : MoveClassification
  | brilliant : MoveClassification
  | forced : MoveClassification
deriving DecidableEq, Repr

/-- The record returned by `analyzeMoveQuality`; `bestMove := none` models
an absent `bestMove` field. -/
structure AnalyzeResult where
  classification : MoveClassification
  score : Int
  bestMove : Option MoveT
deriving DecidableEq, Repr

/-- A clock oracle on which the time budget is never exceeded. -/
def noClock : Nat → Bool := fun _ => false

/-- A clock oracle on which the time budget is always already exceeded. -/
def spentClock : Nat → Bool := fun _ => true

/-- `analyzeMoveQuality` from `ai.ts`.  The internal `getBestMove` call
uses the `'hard'` tier, which reads neither the random draw nor the
clock. -/
def analyzeMoveQuality (previousState : GameState) (moveMade : MoveT) : AnalyzeResult :=
  let player := previousState.currentPlayer
  let stateAfterMove := makeMove previousState moveMade.boardIndex moveMade.cellIndex
  let scoreMade := evaluateStateAdvanced stateAfterMove player
  match getBestMove previousState "hard" 0 noClock with
  | none => ⟨.forced, scoreMade, none⟩
  | some bestMoveObj =>
    let bestMove := bestMoveObj.move
    let stateAfterBest := makeMove previousState bestMove.boardIndex bestMove.cellIndex
    let scoreBest := evaluateStateAdvanced stateAfterBest player
    let diff := scoreBest - scoreMade
    let c0 : MoveClassification :=
      if diff < 50 then .best
      else if diff < 300 then .good
      else if diff < 2000 then .inaccuracy
      else .blunder
    let c1 : MoveClassification :=
      if c0 = .best ∧ scoreMade > 1000 ∧ (scoreBest - scoreMade).natAbs < 10 then .brilliant
      else c0
    ⟨c1, scoreMade, if c1 = .best then none else some bestMove⟩

/-- The evaluation the `'hard'` tier assigns to a legal move: score of the
state after the move, from the mover's perspective. -/
def evalAfter (state : GameState) (m : MoveT) : Int :=
  evaluateStateAdvanced (makeMove state m.boardIndex m.cellIndex) state.currentPlayer

/-- `cells` contains a completed line of the non-null value `w`. -/
def hasLine (cells : List Winner) (w : Wval) : Bool :=
  WINNING_PATTERNS.any fun t =>
    cells.getD t.1 none == some w && cells.getD t.2.1 none == some w &&
      cells.getD t.2.2 none == some w

/-- C3 counterexample grid: row 0 is an X line, row 1 is an O line. -/
def cexC3 : List Winner :=
  [some (.P .X), some (.P .X), some (.P .X),
   some (.P .O), some (.P .O), some (.P .O),
   some (.P .X), some (.P .O), some (.P .X)]

/-- A full small board with an X line (used as a decided sub-board). -/
def fullXBoard : SmallBoardState :=
  ⟨[some .X, some .X, some .X, some .O, some .O, some .X, some .O, some .X, some .O],
    some (.P .X)⟩

/-- A full small board with an O line (used as a decided sub-board). -/
def fullOBoard : SmallBoardState :=
  ⟨[some .O, some .O, some .O, some .X, some .X, some .O, some .X, some .O, some .X],
    some (.P .O)⟩

/-- A full small board with no line (a drawn sub-board). -/
def drawnFull : SmallBoardState :=
  ⟨[some .X, some .X, some .O, some .O, some .O, some .X, some .X, some .X, some .O],
    some .Draw⟩

/-- An untouched small board. -/
def emptyBoard : SmallBoardState := ⟨List.replicate 9 none, none⟩

/-- C5 counterexample: a finished, drawn game (macro board full, no line,
every sub-board decided consistently). -/
def drawState : GameState :=
  { boards := [fullXBoard, fullXBoard, fullOBoard, fullOBoard, fullOBoard,
               fullXBoard, fullXBoard, fullXBoard, fullOBoard]
    macroBoard := [some (.P .X), some (.P .X), some (.P .O), some (.P .O), some (.P .O),
                   some (.P .X), some (.P .X), some (.P .X), some (.P .O)]
    activeBoard := none
    currentPlayer := .X
    winner := some .Draw
    history := []
    difficulty := none
    lastMove := none }

/-- Cells of board 0 in the C6 counterexample (hole at cell 2, raw value 10). -/
def b0c : List (Option Player) :=
  [some .X, some .O, none, some .X, some .X, some .O, some .O, some .X, some .O]

/-- Cells of board 1 in the C6 counterexample (hole at cell 4, raw value 30). -/
def b1c : List (Option Player) :=
  [some .X, some .X, some .O, some .O, none, some .X, some .X, some .O, some .O]

/-- C6 counterexample: exactly two legal moves, `(0,2)` and `(1,4)`, whose
resulting states evaluate equally, while `orderMoves` puts `(1,4)` first via
the center bias. -/
def cexC6 : GameState :=
  { boards := [⟨b0c, none⟩, ⟨b1c, none⟩, drawnFull, fullXBoard, drawnFull,
               fullOBoard, fullOBoard, fullXBoard, fullXBoard]
    macroBoard := [none, none, some .Draw, some (.P .X), some .Draw,
                   some (.P .O), some (.P .O), some (.P .X), some (.P .X)]
    activeBoard := none
    currentPlayer := .X
    winner := none
    history := []
    difficulty := none
    lastMove := none }

/-- C7 counterexample: X to move in sub-board 2 can complete the macro line
0-1-2 by playing cell 2. -/
def cexC7 : GameState :=
  { boards := [fullXBoard, fullXBoard,
               ⟨[some .X, some .X, none, some .O, some .O, none, none, none, none], none⟩,
               emptyBoard, emptyBoard, emptyBoard, emptyBoard, emptyBoard, emptyBoard]
    macroBoard := [some (.P .X), some (.P .X), none, none, none, none, none, none, none]
    activeBoard := some 2
    currentPlayer := .X
    winner := none
    history := []
    difficulty := none
    lastMove := none }

/-- The state after X wins the game from `cexC7` by playing `(2,2)`. -/
def wonState : GameState := makeMove cexC7 2 2

/-- The per-line predicate of `checkBoardWinner`, as a function of the
three accessed values. -/
def linePredV (va vb vc : Winner) : Bool := va.isSome && va == vb && va == vc

/-- `true` iff an `Except` value is `.ok`. -/
def exOk (e : Except Int Int) : Bool :=
  match e with
  | .ok _ => true
  | .error _ => false

instance exceptIntDecEq : DecidableEq (Except Int Int)
  | .error x, .error y =>
    if h : x = y then .isTrue (congrArg Except.error h)
    else .isFalse fun hc => h (Except.error.inj hc)
  | .error _, .ok _ => .isFalse fun hc => Except.noConfusion hc
  | .ok _, .error _ => .isFalse fun hc => Except.noConfusion hc
  | .ok x, .ok y =>
    if h : x = y then .isTrue (congrArg Except.ok h)
    else .isFalse fun hc => h (Except.ok.inj hc)

/-- Invariants the rules engine maintains along legal play: 9 boards of 9
cells, a 9-cell macro board, each sub-board's recorded winner equal to the
shared line rule applied to its cells, the macro board mirroring the
sub-board winners, any specific active board in range, undecided and not
full, and the global result derived from the macro board. -/
def WFState (s : GameState) : Prop :=
  s.boards.length = 9 ∧ s.macroBoard.length = 9 ∧
    (∀ i, i < 9 → (s.boards.getD i default).cells.length = 9) ∧
    (∀ i, i < 9 → (s.boards.getD i default).winner =
      checkBoardWinner ((s.boards.getD i default).cells.map pcell)) ∧
    (∀ i, i < 9 → s.macroBoard.getD i none = (s.boards.getD i default).winner) ∧
    (∀ a, s.activeBoard = some a → a < 9 ∧ (s.boards.getD a default).winner = none ∧
      (s.boards.getD a default).cells.all (·.isSome) = false) ∧
    s.winner = checkBoardWinner s.macroBoard

/-- Game states reachable from the initial state by legal moves.  Indices
are in range, as out-of-range array access faults in the source. -/
inductive Reachable : GameState → Prop where
  | init : Reachable INITIAL_GAME_STATE
  | step (s : GameState) (b c : Nat) (hs : Reachable s) (hb : b < 9) (hc : c < 9)
      (hlegal : isMoveValid s b c = true) : Reachable (makeMove s b c)

/-- C1: `isMoveValid` returns `false` exactly under the four rejection
conditions of the spec — a decided game result, a specific active sub-board
different from the target, a decided target sub-board, or an occupied
target cell — and `true` otherwise. -/
theorem C1_isMoveValid_iff (state : GameState) (boardIndex cellIndex : Nat)
    (hb : boardIndex < 9) (hc : cellIndex < 9) :
    isMoveValid state boardIndex cellIndex = false ↔
      (state.winner ≠ none ∨
        (state.activeBoard ≠ none ∧ state.activeBoard ≠ some boardIndex) ∨
        (state.boards.getD boardIndex default).winner ≠ none ∨
        (state.boards.getD boardIndex default).cells.getD cellIndex none ≠ none) := by
  simp only [isMoveValid, Bool.and_eq_true, ne_eq, decide_not, Bool.not_eq_true,
    decide_eq_false_iff_not]
  rcases hw : state.winner with _ | w <;>
    rcases ha : state.activeBoard with _ | a <;>
      rcases hbw : (state.boards.getD boardIndex default).winner with _ | bw <;>
        rcases hcc : (state.boards.getD boardIndex default).cells.getD cellIndex none
          with _ | cc <;>
          simp [hbw, hcc] <;> tauto

/-- Witness for C1 at a concrete in-range input. -/
theorem C1_witness :
    0 < 9 ∧ 4 < 9 ∧
      (isMoveValid INITIAL_GAME_STATE 0 4 = false ↔
        (INITIAL_GAME_STATE.winner ≠ none ∨
          (INITIAL_GAME_STATE.activeBoard ≠ none ∧
            INITIAL_GAME_STATE.activeBoard ≠ some 0) ∨
          (INITIAL_GAME_STATE.boards.getD 0 default).winner ≠ none ∨
          (INITIAL_GAME_STATE.boards.getD 0 default).cells.getD 4 none ≠ none)) :=
  ⟨by decide, by decide, C1_isMoveValid_iff INITIAL_GAME_STATE 0 4 (by decide) (by decide)⟩

/-- Bridge between the boolean decided-or-full guard of `makeMove` and its
propositional form. -/
theorem nextActive_ite (d : SmallBoardState) (c : Nat) :
    (if d.winner.isSome || d.cells.all (·.isSome) then (none : Option Nat) else some c) =
      if d.winner ≠ none ∨ d.cells.all (·.isSome) = true then none else some c := by
  cases hw : d.winner <;> cases hall : d.cells.all (·.isSome) <;> simp [hw, hall]

/-- C2: after a legal move, the next active sub-board is the played cell's
index unless the sub-board at that index is (after the move lands) decided
or full, in which case the next mover is free.  The decided/full test reads
the post-move boards, matching the spec's "evaluated after a move lands in
a cell". -/
theorem C2_next_active_board (state : GameState) (boardIndex cellIndex : Nat)
    (hb : boardIndex < 9) (hc : cellIndex < 9)
    (hlegal : isMoveValid state boardIndex cellIndex = true) :
    (makeMove state boardIndex cellIndex).activeBoard =
      if ((makeMove state boardIndex cellIndex).boards.getD cellIndex default).winner ≠ none ∨
          ((makeMove state boardIndex cellIndex).boards.getD cellIndex default).cells.all
            (·.isSome) = true
      then none else some cellIndex :=
  nextActive_ite ((makeMove state boardIndex cellIndex).boards.getD cellIndex default)
    cellIndex

/-- Witness for C2: from the initial state, playing cell 4 of board 0 sends
the opponent to (undecided, non-full) sub-board 4. -/
theorem C2_witness :
    0 < 9 ∧ 4 < 9 ∧ isMoveValid INITIAL_GAME_STATE 0 4 = true ∧
      (makeMove INITIAL_GAME_STATE 0 4).activeBoard =
        if ((makeMove INITIAL_GAME_STATE 0 4).boards.getD 4 default).winner ≠ none ∨
            ((makeMove INITIAL_GAME_STATE 0 4).boards.getD 4 default).cells.all
              (·.isSome) = true
        then none else some 4 :=
  ⟨by decide, by decide, by decide,
    C2_next_active_board INITIAL_GAME_STATE 0 4 (by decide) (by decide) (by decide)⟩

/-- C9: replay is deterministic (a pure fold) and composable — folding the
apply-function over a suffix, starting from the state reconstructed from
the prefix, yields the state reconstructed from the whole log. -/
theorem C9_replay_roundtrip (log l1 l2 : List MoveHistory) (d : Option String)
    (hsplit : log = l1 ++ l2) :
    reconstructGameState log d = reconstructGameState log d ∧
      l2.foldl (fun s m => makeMove s m.boardIndex m.cellIndex)
        (reconstructGameState l1 d) = reconstructGameState log d := by
  subst hsplit
  refine ⟨rfl, ?_⟩
  simp only [reconstructGameState, List.foldl_append]

/-- Witness for C9 on a concrete two-move log split after the first move. -/
theorem C9_witness :
    reconstructGameState [⟨0, 4, .X⟩, ⟨4, 0, .O⟩] none =
        reconstructGameState [⟨0, 4, .X⟩, ⟨4, 0, .O⟩] none ∧
      [(⟨4, 0, .O⟩ : MoveHistory)].foldl (fun s m => makeMove s m.boardIndex m.cellIndex)
        (reconstructGameState [⟨0, 4, .X⟩] none) =
        reconstructGameState [⟨0, 4, .X⟩, ⟨4, 0, .O⟩] none :=
  C9_replay_roundtrip [⟨0, 4, .X⟩, ⟨4, 0, .O⟩] [⟨0, 4, .X⟩] [⟨4, 0, .O⟩] none rfl

/-- C3 counterexample: a grid holding a completed line for O (row 1) on
which `checkBoardWinner` does not return O — the X line of row 0 comes
first in pattern order — refuting "for every grid that contains a completed
line for a mark, it returns that mark". -/
theorem C3_counterexample :
    cexC3.length = 9 ∧ hasLine cexC3 (.P .O) = true ∧
      checkBoardWinner cexC3 ≠ some (.P .O) := by decide

/-- C3 (amended): `checkBoardWinner` checks lines before the all-filled
test, returning the value of the first completed line in pattern order.
When exactly one value has a completed line and it is a player's mark, that
mark is returned even when all 9 cells are filled; and a full grid with no
completed line yields Draw, not None. -/
theorem C3_lines_before_fill :
    (∀ (cells : List Winner) (m : Player), cells.length = 9 →
      hasLine cells (.P m) = true →
      (∀ w : Wval, w ≠ .P m → hasLine cells w = false) →
      checkBoardWinner cells = some (.P m)) ∧
    (∀ cells : List Winner, cells.length = 9 → cells.all (·.isSome) = true →
      (∀ w : Wval, hasLine cells w = false) → checkBoardWinner cells = some .Draw) := by
  constructor
  · intro cells m _ hl hu
    obtain ⟨t, ht, hcomp⟩ := List.any_eq_true.mp hl
    simp only [Bool.and_eq_true, beq_iff_eq] at hcomp
    obtain ⟨⟨h1, h2⟩, h3⟩ := hcomp
    unfold checkBoardWinner
    cases hf : WINNING_PATTERNS.find? (linePred cells) with
    | none =>
      exfalso
      apply List.find?_eq_none.mp hf t ht
      rw [linePred, h1, h2, h3]
      simp
    | some t2 =>
      have hpred := List.find?_some hf
      have hmem := List.mem_of_find?_eq_some hf
      rw [linePred] at hpred
      simp only [Bool.and_eq_true, beq_iff_eq, Option.isSome_iff_exists] at hpred
      obtain ⟨⟨⟨w0, hw0⟩, hb⟩, hc2⟩ := hpred
      have hline0 : hasLine cells w0 = true := by
        apply List.any_eq_true.mpr
        refine ⟨t2, hmem, ?_⟩
        simp only [Bool.and_eq_true, beq_iff_eq]
        refine ⟨⟨hw0, ?_⟩, ?_⟩
        · rw [← hb]; exact hw0
        · rw [← hc2]; exact hw0
      have : w0 = .P m := by
        by_contra hne
        rw [hu w0 hne] at hline0
        exact Bool.false_ne_true hline0
      show cells.getD t2.1 none = some (Wval.P m)
      rw [hw0, this]
  · intro cells _ hfill hno
    unfold checkBoardWinner
    cases hf : WINNING_PATTERNS.find? (linePred cells) with
    | some t2 =>
      exfalso
      have hpred := List.find?_some hf
      have hmem := List.mem_of_find?_eq_some hf
      rw [linePred] at hpred
      simp only [Bool.and_eq_true, beq_iff_eq, Option.isSome_iff_exists] at hpred
      obtain ⟨⟨⟨w0, hw0⟩, hb⟩, hc2⟩ := hpred
      have hline0 : hasLine cells w0 = true := by
        apply List.any_eq_true.mpr
        refine ⟨t2, hmem, ?_⟩
        simp only [Bool.and_eq_true, beq_iff_eq]
        refine ⟨⟨hw0, ?_⟩, ?_⟩
        · rw [← hb]; exact hw0
        · rw [← hc2]; exact hw0
      rw [hno w0] at hline0
      exact Bool.false_ne_true hline0
    | none => rw [if_pos hfill]

/-- Witness for C3 (amended): an X-lined full grid and a lineless full
grid. -/
theorem C3_witness :
    checkBoardWinner (fullXBoard.cells.map pcell) = some (.P .X) ∧
      checkBoardWinner (drawnFull.cells.map pcell) = some .Draw :=
  ⟨C3_lines_before_fill.1 (fullXBoard.cells.map pcell) .X (by decide) (by decide) (by decide),
    C3_lines_before_fill.2 (drawnFull.cells.map pcell) (by decide) (by decide) (by decide)⟩

theorem linePred_eq_linePredV (cells : List Winner) (t : Nat × Nat × Nat) :
    linePred cells t =
      linePredV (cells.getD t.1 none) (cells.getD t.2.1 none) (cells.getD t.2.2 none) := rfl

/-- On a completed line with a player's mark, the macro-scan step performs
the early return with the win constant signed by the perspective. -/
theorem scanStep_line :
    ∀ (va vb vc : Winner) (q p : Player), linePredV va vb vc = true → va = some (.P p) →
      scanStep va vb vc q (other q) =
        .error (if q = p then WIN_SCORE else -WIN_SCORE) := by decide

/-- On a non-completed line, the macro-scan step does not return early. -/
theorem scanStep_ok :
    ∀ (va vb vc : Winner) (q : Player), linePredV va vb vc = false →
      exOk (scanStep va vb vc q (other q)) = true := by decide

/-- If the first completed line found by `checkBoardWinner` carries the
mark `p`, the macro scan of `evaluateStateAdvanced` early-returns the win
constant signed by the perspective `q`, from any accumulator. -/
theorem macroScan_find_line (mb : List Winner) (q p : Player) :
    ∀ (pats : List (Nat × Nat × Nat)) (acc : Int) (t : Nat × Nat × Nat),
      pats.find? (linePred mb) = some t → mb.getD t.1 none = some (.P p) →
      macroScan mb q (other q) pats acc =
        .error (if q = p then WIN_SCORE else -WIN_SCORE) := by
  intro pats
  induction pats with
  | nil => intro acc t h _; simp at h
  | cons hd tl ih =>
    intro acc t hfind hval
    by_cases hh : linePred mb hd = true
    · rw [List.find?_cons_of_pos _ hh] at hfind
      have ht : hd = t := by injection hfind
      subst ht
      have hstep := scanStep_line (mb.getD hd.1 none) (mb.getD hd.2.1 none)
        (mb.getD hd.2.2 none) q p (by rw [← linePred_eq_linePredV]; exact hh) hval
      simp only [macroScan]
      rw [hstep]
    · rw [List.find?_cons_of_neg _ (by simpa using hh)] at hfind
      have hok := scanStep_ok (mb.getD hd.1 none) (mb.getD hd.2.1 none)
        (mb.getD hd.2.2 none) q
        (by rw [← linePred_eq_linePredV]; simpa using hh)
      cases hstep : scanStep (mb.getD hd.1 none) (mb.getD hd.2.1 none)
          (mb.getD hd.2.2 none) q (other q) with
      | error v => rw [hstep] at hok; simp [exOk] at hok
      | ok d =>
        simp only [macroScan, hstep]
        exact ih (acc + d) t hfind hval

/-- C5 counterexample: a finished drawn game (result Draw, consistent with
the macro board) on which the evaluator returns a nonzero heuristic sum
instead of 0. -/
theorem C5_counterexample :
    drawState.winner = checkBoardWinner drawState.macroBoard ∧
      drawState.winner = some .Draw ∧
      evaluateStateAdvanced drawState .X ≠ 0 := by decide

/-- C5 (amended): the decisive check covers only won results and is
performed through the macro-line scan, not a result-field test.  For every
state whose result is a win for a player (result consistent with the macro
board, as `makeMove` maintains), the evaluator returns the maximum win
constant for the winner's perspective and its negation for the other; for
a drawn result no decisive check exists and the heuristic sum is returned,
which can be nonzero. -/
theorem checkBoardWinner_of_find_some (cells : List Winner) (t : Nat × Nat × Nat)
    (hf : WINNING_PATTERNS.find? (linePred cells) = some t) :
    checkBoardWinner cells = cells.getD t.1 none := by
  rw [checkBoardWinner, hf]

theorem checkBoardWinner_of_find_none (cells : List Winner)
    (hf : WINNING_PATTERNS.find? (linePred cells) = none) :
    checkBoardWinner cells = if cells.all (·.isSome) then some .Draw else none := by
  rw [checkBoardWinner, hf]

theorem C5_decisive_win_eval (state : GameState) (p : Player)
    (hcons : state.winner = checkBoardWinner state.macroBoard)
    (hwin : state.winner = some (.P p)) (q : Player) :
    evaluateStateAdvanced state q = if q = p then WIN_SCORE else -WIN_SCORE := by
  have h : checkBoardWinner state.macroBoard = some (.P p) := by rw [← hcons, hwin]
  cases hf : WINNING_PATTERNS.find? (linePred state.macroBoard) with
  | none =>
    rw [checkBoardWinner_of_find_none state.macroBoard hf] at h
    exfalso
    split at h
    · exact Wval.noConfusion (Option.some.inj h)
    · exact Option.noConfusion h
  | some t =>
    rw [checkBoardWinner_of_find_some state.macroBoard t hf] at h
    have hscan := macroScan_find_line state.macroBoard q p WINNING_PATTERNS 0 t hf h
    simp only [evaluateStateAdvanced]
    rw [hscan]

/-- Witness for C5 (amended) at the concrete won state. -/
theorem C5_witness :
    evaluateStateAdvanced wonState .O = if Player.O = Player.X then WIN_SCORE else -WIN_SCORE :=
  C5_decisive_win_eval wonState .X (by decide) (by decide) .O

theorem getD_mod_mem (l : List MoveT) (i : Nat) (h : l ≠ []) :
    l.getD (i % l.length) default ∈ l := by
  have hlen : 0 < l.length := List.length_pos.mpr h
  have hlt : i % l.length < l.length := Nat.mod_lt _ hlen
  rw [List.getD_eq_getElem l default hlt]
  exact List.getElem_mem hlt

theorem headD_mem (l : List MoveT) (h : l ≠ []) : l.headD default ∈ l := by
  cases l with
  | nil => exact absurd rfl h
  | cons a t => exact List.mem_cons_self a t

theorem hardLoop_mem (f : MoveT → Int) :
    ∀ (l : List MoveT) (bm : MoveT) (bs : XInt),
      (hardLoop f l bm bs).1 = bm ∨ (hardLoop f l bm bs).1 ∈ l := by
  intro l
  induction l with
  | nil => intro bm bs; exact Or.inl rfl
  | cons m rest ih =>
    intro bm bs
    simp only [hardLoop]
    by_cases hblt : XInt.blt bs (.fin (f m)) = true
    · rw [if_pos hblt]
      rcases ih m (.fin (f m)) with h | h
      · exact Or.inr (by rw [h]; exact List.mem_cons_self m rest)
      · exact Or.inr (List.mem_cons_of_mem m h)
    · rw [if_neg hblt]
      rcases ih bm bs with h | h
      · exact Or.inl h
      · exact Or.inr (List.mem_cons_of_mem m h)

theorem orderMoves_perm (state : GameState) (moves : List MoveT) (p : Player) :
    (orderMoves state moves p).Perm moves := by
  have h1 := List.perm_insertionSort (fun x y => y.2 ≤ x.2)
    (moves.map fun m => (m, orderScore state p m))
  have h2 := h1.map (fun x => x.1)
  simpa [orderMoves, List.map_map, Function.comp_def, List.map_id'] using h2

theorem rootFold_mem (clock : Nat → Bool) (aiPlayer : Player) (state : GameState)
    (depth : Nat) :
    ∀ (l : List MoveT) (cb : MoveT) (cbs alpha beta : XInt) (tick : Nat)
      (res : MoveT × XInt × Nat),
      rootFold clock aiPlayer state depth l cb cbs alpha beta tick = .ok res →
      res.1 = cb ∨ res.1 ∈ l := by
  intro l
  induction l with
  | nil =>
    intro cb cbs alpha beta tick res h
    simp only [rootFold] at h
    cases h
    exact Or.inl rfl
  | cons m rest ih =>
    intro cb cbs alpha beta tick res h
    simp only [rootFold] at h
    cases hmm : minimax clock aiPlayer (depth - 1)
        (makeMove state m.boardIndex m.cellIndex) alpha beta false tick with
    | error e => rw [hmm] at h; cases h
    | ok vt =>
      rw [hmm] at h
      obtain ⟨v, t2⟩ := vt
      simp only at h
      by_cases hble : XInt.ble beta (XInt.fmax alpha v) = true
      · rw [if_pos hble] at h
        cases h
        by_cases hupd : XInt.blt cbs v = true
        · simp only [hupd, if_pos] at *
          exact Or.inr (by simp [hupd, List.mem_cons])
        · simp only [hupd] at *
          left
          simp [hupd]
      · rw [if_neg hble] at h
        rcases ih _ _ _ _ _ _ h with h2 | h2
        · by_cases hupd : XInt.blt cbs v = true
          · rw [h2]
            exact Or.inr (by simp [hupd, List.mem_cons])
          · rw [h2]
            left
            simp [hupd]
        · exact Or.inr (List.mem_cons_of_mem m h2)

theorem idLoop_mem (clock : Nat → Bool) (aiPlayer : Player) (state : GameState)
    (moves : List MoveT) :
    ∀ (r depth : Nat) (bm : MoveT) (bs : XInt) (sorted : List MoveT) (tick : Nat),
      bm ∈ moves → sorted ≠ [] → (∀ x ∈ sorted, x ∈ moves) →
      (idLoop clock aiPlayer state r depth bm bs sorted tick).1 ∈ moves := by
  intro r
  induction r with
  | zero => intro depth bm bs sorted tick hbm _ _; exact hbm
  | succ n ih =>
    intro depth bm bs sorted tick hbm hne hsub
    simp only [idLoop]
    by_cases hcl : clock tick = true
    · rw [if_pos hcl]; exact hbm
    · rw [if_neg hcl]
      cases hrf : rootFold clock aiPlayer state depth sorted (sorted.headD default)
          .negInf .negInf .posInf (tick + 1) with
      | error e => exact hbm
      | ok res =>
        obtain ⟨cb, cbs, t2⟩ := res
        have hcb : cb ∈ moves := by
          rcases rootFold_mem clock aiPlayer state depth sorted (sorted.headD default)
              .negInf .negInf .posInf (tick + 1) (cb, cbs, t2) hrf with h | h
          · have h2 : cb = sorted.headD default := h
            rw [h2]; exact hsub _ (headD_mem sorted hne)
          · exact hsub _ h
        apply ih
        · exact hcb
        · simp
        · intro x hx
          rcases List.mem_cons.mp hx with h | h
          · rw [h]; exact hcb
          · exact hsub x (List.mem_of_mem_filter h)

theorem isMoveValid_true_iff (state : GameState) (b c : Nat) :
    isMoveValid state b c = true ↔
      (state.winner = none ∧ (state.activeBoard = none ∨ state.activeBoard = some b) ∧
        (state.boards.getD b default).winner = none ∧
        (state.boards.getD b default).cells.getD c none = none) := by
  simp only [isMoveValid]
  rcases hw : state.winner with _ | w <;>
    rcases ha : state.activeBoard with _ | a <;>
      rcases hbw : (state.boards.getD b default).winner with _ | bw <;>
        rcases hcc : (state.boards.getD b default).cells.getD c none with _ | cc <;>
          simp [hbw, hcc]

theorem legalMove_mem (state : GameState) (b c : Nat) (hb : b < 9) (hc : c < 9)
    (hlegal : isMoveValid state b c = true) :
    (⟨b, c⟩ : MoveT) ∈ getAvailableMoves state := by
  rw [isMoveValid_true_iff] at hlegal
  obtain ⟨hw, ha, hbw, hcc⟩ := hlegal
  have hinner : (⟨b, c⟩ : MoveT) ∈
      (if (state.boards.getD b default).winner.isSome then ([] : List MoveT)
       else (List.range 9).filterMap fun cIdx =>
         if (state.boards.getD b default).cells.getD cIdx none = none then
           some ⟨b, cIdx⟩ else none) := by
    have hns : (state.boards.getD b default).winner.isSome = false := by
      rw [hbw]; rfl
    rw [if_neg (by rw [hns]; exact Bool.false_ne_true)]
    apply List.mem_filterMap.mpr
    exact ⟨c, List.mem_range.mpr hc, by rw [if_pos hcc]⟩
  rcases ha with h | h
  · simp only [getAvailableMoves, h]
    apply List.mem_flatMap.mpr
    refine ⟨b, ?_, hinner⟩
    simp only [List.mem_cons, List.not_mem_nil, or_false]
    omega
  · simp only [getAvailableMoves, h]
    apply List.mem_flatMap.mpr
    exact ⟨b, List.mem_singleton.mpr rfl, hinner⟩

theorem getBestMove_eq_none_iff (state : GameState) (difficulty : String) (rand : Nat)
    (clock : Nat → Bool) :
    getBestMove state difficulty rand clock = none ↔ getAvailableMoves state = [] := by
  constructor
  · intro h
    by_contra hne
    have hemp : (getAvailableMoves state).isEmpty = false := by
      cases hl : getAvailableMoves state with
      | nil => exact absurd hl hne
      | cons a t => rfl
    simp only [getBestMove, hemp, Bool.false_eq_true, if_false] at h
    by_cases he : (difficulty == "easy") = true
    · simp [he] at h
    · simp only [he, Bool.false_eq_true, if_false] at h
      by_cases hm : (difficulty == "medium") = true
      · simp only [hm, if_true] at h
        cases hf1 : (getAvailableMoves state).find? fun m =>
            ((makeMove state m.boardIndex m.cellIndex).boards.getD m.boardIndex
              default).winner == some (.P state.currentPlayer) with
        | some m => rw [hf1] at h; cases h
        | none =>
          rw [hf1] at h
          cases hf2 : (getAvailableMoves state).find? fun m =>
              checkBoardWinner
                  (((state.boards.getD m.boardIndex default).cells.set m.cellIndex
                    (some (other state.currentPlayer))).map pcell) ==
                some (.P (other state.currentPlayer)) with
          | some m => rw [hf2] at h; cases h
          | none => rw [hf2] at h; cases h
      · simp only [hm, Bool.false_eq_true, if_false] at h
        by_cases hh : (difficulty == "hard") = true
        · simp [hh] at h
        · simp only [hh, Bool.false_eq_true, if_false] at h
          by_cases hi : (difficulty == "impossible") = true
          · simp [hi] at h
          · simp [hi] at h
  · intro h
    simp [getBestMove, h]

/-- C10: whenever `getBestMove` returns a move — for any difficulty string
(the four tiers and the fall-through default), any random draw and any
clock oracle — that move is an element of `getAvailableMoves`. -/
theorem C10_engine_move_legal (state : GameState) (difficulty : String) (rand : Nat)
    (clock : Nat → Bool) (r : BestMoveResult)
    (h : getBestMove state difficulty rand clock = some r) :
    r.move ∈ getAvailableMoves state := by
  have hne : getAvailableMoves state ≠ [] := by
    intro hnil
    rw [(getBestMove_eq_none_iff state difficulty rand clock).mpr hnil] at h
    cases h
  have hemp : (getAvailableMoves state).isEmpty = false := by
    cases hl : getAvailableMoves state with
    | nil => exact absurd hl hne
    | cons a t => rfl
  simp only [getBestMove, hemp, Bool.false_eq_true, if_false] at h
  by_cases he : (difficulty == "easy") = true
  · simp only [he, if_true] at h
    have hr : r = ⟨(getAvailableMoves state).getD
        (rand % (getAvailableMoves state).length) default, none⟩ := (Option.some.inj h).symm
    rw [hr]
    exact getD_mod_mem _ _ hne
  · simp only [he, Bool.false_eq_true, if_false] at h
    by_cases hm : (difficulty == "medium") = true
    · simp only [hm, if_true] at h
      cases hf1 : (getAvailableMoves state).find? (fun m =>
          ((makeMove state m.boardIndex m.cellIndex).boards.getD m.boardIndex
            default).winner == some (.P state.currentPlayer)) with
      | some m =>
        rw [hf1] at h
        have hr : r = ⟨m, none⟩ := (Option.some.inj h).symm
        rw [hr]
        exact List.mem_of_find?_eq_some hf1
      | none =>
        rw [hf1] at h
        cases hf2 : (getAvailableMoves state).find? (fun m =>
            checkBoardWinner
                (((state.boards.getD m.boardIndex default).cells.set m.cellIndex
                  (some (other state.currentPlayer))).map pcell) ==
              some (.P (other state.currentPlayer))) with
        | some m =>
          rw [hf2] at h
          have hr : r = ⟨m, none⟩ := (Option.some.inj h).symm
          rw [hr]
          exact List.mem_of_find?_eq_some hf2
        | none =>
          rw [hf2] at h
          have hr : r = ⟨(getAvailableMoves state).getD
              (rand % (getAvailableMoves state).length) default, none⟩ :=
            (Option.some.inj h).symm
          rw [hr]
          exact getD_mod_mem _ _ hne
    · simp only [hm, Bool.false_eq_true, if_false] at h
      by_cases hh : (difficulty == "hard") = true
      · simp only [hh, if_true] at h
        have hr := (Option.some.inj h).symm
        rw [hr]
        rcases hardLoop_mem
            (fun m => evaluateStateAdvanced (makeMove state m.boardIndex m.cellIndex)
              state.currentPlayer)
            (orderMoves state (getAvailableMoves state) state.currentPlayer)
            ((getAvailableMoves state).headD default) .negInf with h2 | h2
        · show _ ∈ getAvailableMoves state
          rw [h2]
          exact headD_mem _ hne
        · exact (orderMoves_perm state (getAvailableMoves state)
            state.currentPlayer).mem_iff.mp h2
      · simp only [hh, Bool.false_eq_true, if_false] at h
        by_cases hi : (difficulty == "impossible") = true
        · simp only [hi, if_true, getImpossibleMove] at h
          have hr := (Option.some.inj h).symm
          rw [hr]
          have hperm := orderMoves_perm state (getAvailableMoves state) state.currentPlayer
          apply idLoop_mem
          · exact headD_mem _ hne
          · intro h0
            exact hne (List.Perm.eq_nil (h0 ▸ hperm).symm)
          · intro x hx
            exact hperm.mem_iff.mp hx
        · simp only [hi, Bool.false_eq_true, if_false] at h
          have hr : r = ⟨(getAvailableMoves state).headD default, none⟩ :=
            (Option.some.inj h).symm
          rw [hr]
          exact headD_mem _ hne

/-- Witness for C10: the hard tier's choice at `cexC7` is a legal move. -/
theorem C10_witness : (⟨⟨2, 2⟩, some (.fin 10000000)⟩ : BestMoveResult).move ∈
    getAvailableMoves cexC7 :=
  C10_engine_move_legal cexC7 "hard" 0 noClock ⟨⟨2, 2⟩, some (.fin 10000000)⟩ (by decide)

/-- C8: `getBestMove` returns "no move" (`none`) exactly when no legal
move exists — never an error — for every difficulty string, random draw
and clock oracle; and with at least one legal move the Deep tier still
returns a move when the time budget is exhausted before any search depth
completes: on the spent clock it falls back to the first legal move, with
the untouched `-Infinity` seed score. -/
theorem C8_no_move_iff_and_fallback (state : GameState) (difficulty : String) (rand : Nat)
    (clock : Nat → Bool) :
    (getBestMove state difficulty rand clock = none ↔ getAvailableMoves state = []) ∧
      (getAvailableMoves state ≠ [] →
        getBestMove state "impossible" rand spentClock =
          some ⟨(getAvailableMoves state).headD default, some .negInf⟩) := by
  refine ⟨getBestMove_eq_none_iff state difficulty rand clock, ?_⟩
  intro hne
  have hemp : (getAvailableMoves state).isEmpty = false := by
    cases hl : getAvailableMoves state with
    | nil => exact absurd hl hne
    | cons a t => rfl
  have h1 : (("impossible" : String) == "easy") = false := by decide
  have h2 : (("impossible" : String) == "medium") = false := by decide
  have h3 : (("impossible" : String) == "hard") = false := by decide
  have h4 : (("impossible" : String) == "impossible") = true := by decide
  simp only [getBestMove, hemp, h1, h2, h3, h4, Bool.false_eq_true, if_false, if_true]
  simp only [getImpossibleMove, MAX_DEPTH_IMPOSSIBLE]
  rw [show (12 : Nat) = 11 + 1 from rfl]
  simp only [idLoop, spentClock, if_true]

/-- Witness for C8 at the concrete position `cexC7` (five legal moves). -/
theorem C8_witness :
    getBestMove cexC7 "impossible" 0 spentClock =
      some ⟨(getAvailableMoves cexC7).headD default, some .negInf⟩ :=
  (C8_no_move_iff_and_fallback cexC7 "impossible" 0 spentClock).2 (by decide)

/-- C7 counterexample: from `cexC7` the legal winning move `(2,2)` is
classified Brilliant, yet the suggested best move is populated (with the
move itself), refuting "omitted when the label is Best or Brilliant". -/
theorem C7_counterexample :
    isMoveValid cexC7 2 2 = true ∧
      (analyzeMoveQuality cexC7 ⟨2, 2⟩).classification = .brilliant ∧
      (analyzeMoveQuality cexC7 ⟨2, 2⟩).bestMove ≠ none := by decide

/-- `bestMove` of the analyzer's record is `none` exactly when the final
label is Best. -/
theorem bestMove_ite_iff (c1 : MoveClassification) (bm : MoveT) :
    ((if c1 = .best then (none : Option MoveT) else some bm) = none ↔ c1 = .best) := by
  by_cases h : c1 = .best <;> simp [h]

/-- C7 (amended): for every state and legal move, `analyzeMoveQuality`
omits the suggested best move exactly when the label is Best; a Brilliant
(upgraded) move has it populated, as does every other label. -/
theorem C7_best_move_omitted_iff (previousState : GameState) (moveMade : MoveT)
    (hb : moveMade.boardIndex < 9) (hc : moveMade.cellIndex < 9)
    (hlegal : isMoveValid previousState moveMade.boardIndex moveMade.cellIndex = true) :
    (analyzeMoveQuality previousState moveMade).bestMove = none ↔
      (analyzeMoveQuality previousState moveMade).classification = .best := by
  have hmem := legalMove_mem previousState moveMade.boardIndex moveMade.cellIndex hb hc
    hlegal
  have hne : getAvailableMoves previousState ≠ [] := List.ne_nil_of_mem hmem
  cases hgb : getBestMove previousState "hard" 0 noClock with
  | none =>
    exact absurd ((getBestMove_eq_none_iff previousState "hard" 0 noClock).mp hgb) hne
  | some bestObj =>
    simp only [analyzeMoveQuality, hgb]
    exact bestMove_ite_iff _ _

/-- Witness for C7 (amended): a non-best legal move from `cexC7` has the
suggestion populated. -/
theorem C7_witness :
    ((analyzeMoveQuality cexC7 ⟨2, 5⟩).bestMove = none ↔
      (analyzeMoveQuality cexC7 ⟨2, 5⟩).classification = .best) :=
  C7_best_move_omitted_iff cexC7 ⟨2, 5⟩ (by decide) (by decide) (by decide)

/-- The hard-tier loop, entered with the record score equal to the record
move's own evaluation: either nothing in the remaining list beats the
record and it is kept, or the result is the first element of the list
attaining the list's maximum, which beats the record. -/
theorem hardLoop_spec (f : MoveT → Int) :
    ∀ (l : List MoveT) (bm : MoveT),
      ∃ m, hardLoop f l bm (.fin (f bm)) = (m, .fin (f m)) ∧
        (((∀ x ∈ l, f x ≤ f bm) ∧ m = bm) ∨
          (f bm < f m ∧ (∀ x ∈ l, f x ≤ f m) ∧
            l.find? (fun x => f x == f m) = some m)) := by
  intro l
  induction l with
  | nil => intro bm; exact ⟨bm, rfl, Or.inl ⟨by simp, rfl⟩⟩
  | cons m0 rest ih =>
    intro bm
    by_cases hlt : f bm < f m0
    · have hblt : XInt.blt (.fin (f bm)) (.fin (f m0)) = true := by
        simpa [XInt.blt] using hlt
      obtain ⟨m, hm, hcase⟩ := ih m0
      refine ⟨m, ?_, ?_⟩
      · simp only [hardLoop, hblt, if_true]; exact hm
      · rcases hcase with ⟨hall, rfl⟩ | ⟨hlt2, hall, hfind⟩
        · right
          refine ⟨hlt, ?_, ?_⟩
          · intro x hx
            rcases List.mem_cons.mp hx with rfl | hx2
            · exact le_refl _
            · exact hall x hx2
          · rw [List.find?_cons_of_pos]
            simp
        · right
          refine ⟨lt_trans hlt hlt2, ?_, ?_⟩
          · intro x hx
            rcases List.mem_cons.mp hx with rfl | hx2
            · exact le_of_lt hlt2
            · exact hall x hx2
          · rw [List.find?_cons_of_neg]
            · exact hfind
            · simp only [beq_iff_eq]
              omega
    · have hblt : XInt.blt (.fin (f bm)) (.fin (f m0)) = false := by
        simpa [XInt.blt] using hlt
      obtain ⟨m, hm, hcase⟩ := ih bm
      refine ⟨m, ?_, ?_⟩
      · simp only [hardLoop, hblt, Bool.false_eq_true, if_false]; exact hm
      · rcases hcase with ⟨hall, rfl⟩ | ⟨hlt2, hall, hfind⟩
        · left
          refine ⟨?_, rfl⟩
          intro x hx
          rcases List.mem_cons.mp hx with rfl | hx2
          · omega
          · exact hall x hx2
        · right
          refine ⟨hlt2, ?_, ?_⟩
          · intro x hx
            rcases List.mem_cons.mp hx with rfl | hx2
            · omega
            · exact hall x hx2
          · rw [List.find?_cons_of_neg]
            · exact hfind
            · simp only [beq_iff_eq]
              omega

/-- C6 counterexample: at `cexC6` the two legal moves tie on evaluation,
the enumeration order of `getAvailableMoves` lists `(0,2)` first, yet the
hard tier returns `(1,4)` — the presort's center bias decides the tie, not
the enumeration order. -/
theorem C6_counterexample :
    getAvailableMoves cexC6 = [⟨0, 2⟩, ⟨1, 4⟩] ∧
      evalAfter cexC6 ⟨0, 2⟩ = evalAfter cexC6 ⟨1, 4⟩ ∧
      getBestMove cexC6 "hard" 0 noClock = some ⟨⟨1, 4⟩, some (.fin (-4880))⟩ := by
  decide

/-- The hard tier's per-move scoring function is `evalAfter`. -/
theorem evalAfter_eta (state : GameState) :
    (fun m : MoveT => evaluateStateAdvanced (makeMove state m.boardIndex m.cellIndex)
      state.currentPlayer) = evalAfter state := rfl

/-- C6 (amended): with at least one legal move, the hard tier returns a
move maximizing the post-move evaluation from the mover's perspective,
together with that maximal score; among tied maximizers it returns the one
that comes first in the stable heuristic presort produced by `orderMoves`
(not the enumeration order of `getAvailableMoves`). -/
theorem C6_hard_maximizer (state : GameState) (rand : Nat) (clock : Nat → Bool)
    (hne : getAvailableMoves state ≠ []) :
    ∃ r : BestMoveResult,
      getBestMove state "hard" rand clock = some r ∧
        r.move ∈ getAvailableMoves state ∧
        r.score = some (.fin (evalAfter state r.move)) ∧
        (∀ m ∈ getAvailableMoves state, evalAfter state m ≤ evalAfter state r.move) ∧
        (orderMoves state (getAvailableMoves state) state.currentPlayer).find?
            (fun x => evalAfter state x == evalAfter state r.move) = some r.move := by
  have hemp : (getAvailableMoves state).isEmpty = false := by
    cases hl : getAvailableMoves state with
    | nil => exact absurd hl hne
    | cons a t => rfl
  have h1 : (("hard" : String) == "easy") = false := by decide
  have h2 : (("hard" : String) == "medium") = false := by decide
  have h3 : (("hard" : String) == "hard") = true := by decide
  have hperm := orderMoves_perm state (getAvailableMoves state) state.currentPlayer
  have hordne : orderMoves state (getAvailableMoves state) state.currentPlayer ≠ [] := by
    intro h0
    exact hne (List.Perm.eq_nil (h0 ▸ hperm).symm)
  obtain ⟨o0, orest, hord⟩ : ∃ o0 orest,
      orderMoves state (getAvailableMoves state) state.currentPlayer = o0 :: orest := by
    cases h0 : orderMoves state (getAvailableMoves state) state.currentPlayer with
    | nil => exact absurd h0 hordne
    | cons a t => exact ⟨a, t, rfl⟩
  simp only [getBestMove, hemp, h1, h2, h3, Bool.false_eq_true, if_false, if_true,
    evalAfter_eta]
  have hstep :
      hardLoop (evalAfter state) (o0 :: orest) ((getAvailableMoves state).headD default)
          .negInf =
        hardLoop (evalAfter state) orest o0 (.fin (evalAfter state o0)) := by
    simp [hardLoop, XInt.blt]
  obtain ⟨m, hm, hcase⟩ := hardLoop_spec (evalAfter state) orest o0
  have hmemord : m ∈ o0 :: orest := by
    rcases hcase with ⟨_, hmeq⟩ | ⟨_, _, hfind⟩
    · rw [hmeq]; exact List.mem_cons_self o0 orest
    · exact List.mem_cons_of_mem o0 (List.mem_of_find?_eq_some hfind)
  have hmemord2 : m ∈ orderMoves state (getAvailableMoves state) state.currentPlayer := by
    rw [hord]; exact hmemord
  refine ⟨⟨m, some (.fin (evalAfter state m))⟩, ?_, ?_, rfl, ?_, ?_⟩
  · rw [hord, hstep, hm]
  · exact hperm.mem_iff.mp hmemord2
  · intro x hx
    have hxord : x ∈ o0 :: orest := by
      rw [← hord]; exact hperm.mem_iff.mpr hx
    rcases hcase with ⟨hall, rfl⟩ | ⟨hlt, hall, _⟩
    · rcases List.mem_cons.mp hxord with rfl | hx2
      · exact le_refl _
      · exact hall x hx2
    · rcases List.mem_cons.mp hxord with rfl | hx2
      · exact le_of_lt hlt
      · exact hall x hx2
  · rw [hord]
    rcases hcase with ⟨_, rfl⟩ | ⟨hlt, _, hfind⟩
    · rw [List.find?_cons_of_pos]
      simp
    · rw [List.find?_cons_of_neg]
      · exact hfind
      · simp only [beq_iff_eq]
        omega

/-- Witness for C6 (amended) at the two-move position `cexC6`. -/
theorem C6_witness :
    ∃ r : BestMoveResult,
      getBestMove cexC6 "hard" 0 noClock = some r ∧
        r.move ∈ getAvailableMoves cexC6 ∧
        r.score = some (.fin (evalAfter cexC6 r.move)) ∧
        (∀ m ∈ getAvailableMoves cexC6, evalAfter cexC6 m ≤ evalAfter cexC6 r.move) ∧
        (orderMoves cexC6 (getAvailableMoves cexC6) cexC6.currentPlayer).find?
            (fun x => evalAfter cexC6 x == evalAfter cexC6 r.move) = some r.move :=
  C6_hard_maximizer cexC6 0 noClock (by decide)

theorem getD_set_lt {α : Type} (l : List α) (i : Nat) (x d : α) (h : i < l.length) :
    (l.set i x).getD i d = x := by
  rw [List.getD_eq_getElem?_getD, List.getElem?_set_self h]
  rfl

theorem getD_set_of_ne {α : Type} (l : List α) (i j : Nat) (x d : α) (h : i ≠ j) :
    (l.set i x).getD j d = l.getD j d := by
  rw [List.getD_eq_getElem?_getD, List.getD_eq_getElem?_getD, List.getElem?_set_ne h]

/-- A `null` result of the shared line rule implies the grid is not all
filled (a full grid yields a mark or Draw). -/
theorem checkBoardWinner_none_not_full (cells : List Winner)
    (h : checkBoardWinner cells = none) : cells.all (·.isSome) = false := by
  cases hf : WINNING_PATTERNS.find? (linePred cells) with
  | some t =>
    exfalso
    rw [checkBoardWinner_of_find_some cells t hf] at h
    have hpred := List.find?_some hf
    rw [linePred] at hpred
    simp only [Bool.and_eq_true] at hpred
    rw [h] at hpred
    simp at hpred
  | none =>
    rw [checkBoardWinner_of_find_none cells hf] at h
    by_contra hfull
    rw [Bool.not_eq_false] at hfull
    rw [if_pos hfull] at h
    cases h

/-- A non-full list of optional values of length 9 has an empty slot below
index 9. -/
theorem exists_none_of_not_all {α : Type} (l : List (Option α)) (hlen : l.length = 9)
    (h : l.all (·.isSome) = false) : ∃ i, i < 9 ∧ l.getD i none = none := by
  rcases List.all_eq_false.mp h with ⟨x, hx, hxs⟩
  obtain ⟨i, hi, hix⟩ := List.mem_iff_getElem.mp hx
  refine ⟨i, hlen ▸ hi, ?_⟩
  rw [List.getD_eq_getElem?_getD, List.getElem?_eq_getElem hi, hix]
  simp only [Option.getD_some]
  exact Option.not_isSome_iff_eq_none.mp (by simpa using hxs)

theorem map_pcell_getD (cells : List (Option Player)) (j : Nat) :
    (cells.map pcell).getD j none = pcell (cells.getD j none) := by
  rw [List.getD_eq_getElem?_getD, List.getD_eq_getElem?_getD, List.getElem?_map]
  cases cells[j]? <;> rfl

theorem pcell_eq_none_iff (c : Option Player) : pcell c = none ↔ c = none := by
  cases c <;> simp [pcell]

/-- A sub-board with no recorded winner and an empty in-range cell
contributes a move to `getAvailableMoves` when playable. -/
theorem mem_moves_of_empty_cell (state : GameState) (b j : Nat) (hb : b < 9) (hj : j < 9)
    (hw : (state.boards.getD b default).winner = none)
    (hcell : (state.boards.getD b default).cells.getD j none = none)
    (hact : state.activeBoard = none ∨ state.activeBoard = some b) :
    (⟨b, j⟩ : MoveT) ∈ getAvailableMoves state := by
  have hinner : (⟨b, j⟩ : MoveT) ∈
      (if (state.boards.getD b default).winner.isSome then ([] : List MoveT)
       else (List.range 9).filterMap fun cIdx =>
         if (state.boards.getD b default).cells.getD cIdx none = none then
           some ⟨b, cIdx⟩ else none) := by
    have hns : (state.boards.getD b default).winner.isSome = false := by
      rw [hw]; rfl
    rw [if_neg (by rw [hns]; exact Bool.false_ne_true)]
    apply List.mem_filterMap.mpr
    exact ⟨j, List.mem_range.mpr hj, by rw [if_pos hcell]⟩
  rcases hact with h | h
  · simp only [getAvailableMoves, h]
    apply List.mem_flatMap.mpr
    refine ⟨b, ?_, hinner⟩
    simp only [List.mem_cons, List.not_mem_nil, or_false]
    omega
  · simp only [getAvailableMoves, h]
    apply List.mem_flatMap.mpr
    exact ⟨b, List.mem_singleton.mpr rfl, hinner⟩

theorem WFState_initial : WFState INITIAL_GAME_STATE := by
  refine ⟨rfl, rfl, by decide, by decide, by decide, ?_, by decide⟩
  intro a h
  cases h

/-- Legal moves at in-range indices preserve the rules-engine invariants. -/
theorem WFState_makeMove (s : GameState) (b c : Nat) (hwf : WFState s) (hb : b < 9)
    (hc : c < 9) (hlegal : isMoveValid s b c = true) : WFState (makeMove s b c) := by
  obtain ⟨hlen, hmlen, hclen, hwinv, hmirror, _hactive, _hgw⟩ := hwf
  obtain ⟨_hw, _ha, hbw, _hcc⟩ := (isMoveValid_true_iff s b c).mp hlegal
  have hblen : b < s.boards.length := by rw [hlen]; exact hb
  have hbmlen : b < s.macroBoard.length := by rw [hmlen]; exact hb
  have hnbcells : (newBoardOf s b c).cells = newCellsOf s b c := by
    unfold newBoardOf; split <;> rfl
  have hnbwin : (newBoardOf s b c).winner = smallBoardWinnerOf s b c := by
    unfold newBoardOf
    split
    · rfl
    · next hns =>
      have h1 : smallBoardWinnerOf s b c = none := by
        revert hns
        cases smallBoardWinnerOf s b c <;> simp
      rw [h1]
      exact hbw
  have hgetb : (newBoardsOf s b c).getD b default = newBoardOf s b c :=
    getD_set_lt _ _ _ _ hblen
  have hgetne : ∀ i, i ≠ b → (newBoardsOf s b c).getD i default = s.boards.getD i default :=
    fun i hi => getD_set_of_ne _ _ _ _ _ (fun hh => hi hh.symm)
  unfold WFState
  refine ⟨?_, ?_, ?_, ?_, ?_, ?_, rfl⟩
  · show (newBoardsOf s b c).length = 9
    unfold newBoardsOf
    rw [List.length_set]
    exact hlen
  · show (newMacroBoardOf s b c).length = 9
    unfold newMacroBoardOf
    split
    · rw [List.length_set]; exact hmlen
    · exact hmlen
  · intro i hi
    show ((newBoardsOf s b c).getD i default).cells.length = 9
    by_cases hib : i = b
    · subst hib
      rw [hgetb, hnbcells]
      unfold newCellsOf
      rw [List.length_set]
      exact hclen i hi
    · rw [hgetne i hib]
      exact hclen i hi
  · intro i hi
    show ((newBoardsOf s b c).getD i default).winner =
      checkBoardWinner (((newBoardsOf s b c).getD i default).cells.map pcell)
    by_cases hib : i = b
    · subst hib
      rw [hgetb, hnbcells, hnbwin]
      rfl
    · rw [hgetne i hib]
      exact hwinv i hi
  · intro i hi
    show (newMacroBoardOf s b c).getD i none = ((newBoardsOf s b c).getD i default).winner
    by_cases hib : i = b
    · subst hib
      rw [hgetb, hnbwin]
      unfold newMacroBoardOf
      split
      · exact getD_set_lt _ _ _ _ hbmlen
      · next hns =>
        have h1 : smallBoardWinnerOf s i c = none := by
          revert hns
          cases smallBoardWinnerOf s i c <;> simp
        rw [h1, hmirror i hi]
        exact hbw
    · rw [hgetne i hib]
      unfold newMacroBoardOf
      split
      · rw [getD_set_of_ne _ _ _ _ _ (fun hh => hib hh.symm)]
        exact hmirror i hi
      · exact hmirror i hi
  · intro a hai
    have hai2 : nextActiveBoardOf s b c = some a := hai
    unfold nextActiveBoardOf at hai2
    by_cases hguard : ((destBoardOf s b c).winner.isSome ||
        (destBoardOf s b c).cells.all (·.isSome)) = true
    · rw [if_pos hguard] at hai2
      cases hai2
    · rw [if_neg hguard] at hai2
      have hac : a = c := (Option.some.inj hai2).symm
      subst hac
      simp only [Bool.or_eq_true, not_or, Bool.not_eq_true] at hguard
      obtain ⟨hg1, hg2⟩ := hguard
      refine ⟨hc, ?_, ?_⟩
      · show (destBoardOf s b a).winner = none
        exact Option.not_isSome_iff_eq_none.mp (by rw [hg1]; exact Bool.false_ne_true)
      · exact hg2

/-- Under the rules-engine invariants, an undecided game always has a
legal move. -/
theorem WFState_moves_ne (s : GameState) (hwf : WFState s) (hw : s.winner = none) :
    getAvailableMoves s ≠ [] := by
  obtain ⟨_hlen, hmlen, hclen, hwinv, hmirror, hactive, hgw⟩ := hwf
  cases hab : s.activeBoard with
  | some a =>
    obtain ⟨ha9, hawin, hafull⟩ := hactive a hab
    obtain ⟨j, hj, hcell⟩ := exists_none_of_not_all _ (hclen a ha9) hafull
    exact List.ne_nil_of_mem (mem_moves_of_empty_cell s a j ha9 hj hawin hcell (Or.inr hab))
  | none =>
    have hmnone : checkBoardWinner s.macroBoard = none := by rw [← hgw]; exact hw
    have hnotfull := checkBoardWinner_none_not_full _ hmnone
    obtain ⟨i, hi, hmi⟩ := exists_none_of_not_all _ hmlen hnotfull
    have hbwin : (s.boards.getD i default).winner = none := by
      rw [← hmirror i hi]; exact hmi
    have hchk : checkBoardWinner ((s.boards.getD i default).cells.map pcell) = none := by
      rw [← hwinv i hi]; exact hbwin
    have hnf := checkBoardWinner_none_not_full _ hchk
    have hmaplen : ((s.boards.getD i default).cells.map pcell).length = 9 := by
      rw [List.length_map]; exact hclen i hi
    obtain ⟨j, hj, hcellm⟩ := exists_none_of_not_all _ hmaplen hnf
    have hcell : (s.boards.getD i default).cells.getD j none = none := by
      rw [map_pcell_getD] at hcellm
      exact (pcell_eq_none_iff _).mp hcellm
    exact List.ne_nil_of_mem (mem_moves_of_empty_cell s i j hi hj hbwin hcell (Or.inl hab))

theorem Reachable_WFState (s : GameState) (hs : Reachable s) : WFState s := by
  induction hs with
  | init => exact WFState_initial
  | step s2 b c _hs hb hc hlegal ih => exact WFState_makeMove s2 b c ih hb hc hlegal

/-- C4: on every state reachable from the empty initial state by legal
moves, an undecided game result implies `getAvailableMoves` is
non-empty. -/
theorem C4_undecided_has_moves (s : GameState) (hs : Reachable s) (hw : s.winner = none) :
    getAvailableMoves s ≠ [] :=
  WFState_moves_ne s (Reachable_WFState s hs) hw

/-- Witness for C4 at the initial state. -/
theorem C4_witness : getAvailableMoves INITIAL_GAME_STATE ≠ [] :=
  C4_undecided_has_moves INITIAL_GAME_STATE Reachable.init rfl
